import Mathlib

/-!
Verification development for the Pune doctors scraper
(`app.py`, `crawler.py`, `scraper.py`).

The extraction engine of `crawler.py` is embedded as executable functions
over `List Char`.  The three regular expressions `EMAIL_PAT`,
`OBFUSC_EMAIL_PAT` and `EXP_PAT` are embedded as backtracking matchers with
Python `re.search` semantics: the scan tries every start position from the
left, and at a fixed start position quantifiers are greedy and alternatives
are tried in their written order.  Quantifier choices whose continuation can
never succeed (for example shortening a `\s*` run whose continuation cannot
start with whitespace) are resolved directly, which is observably equivalent
to full backtracking for these three patterns.
-/

/-- Character class `[A-Za-z0-9._%+\-]` (local part of `EMAIL_PAT` and group 1
of `OBFUSC_EMAIL_PAT`).  ASCII only, as in the source patterns. -/
def isLocalChar (c : Char) : Bool :=
  c.isAlphanum || c = '.' || c = '_' || c = '%' || c = '+' || c = '-'

/-- Character class `[A-Za-z0-9.\-]` (domain part). -/
def isDomainChar (c : Char) : Bool :=
  c.isAlphanum || c = '.' || c = '-'

/-- Character class `[A-Za-z]` (the TLD part). -/
def isAlphaChar (c : Char) : Bool := c.isAlpha

/-- Python `\s` on ASCII text: space, tab, newline, carriage return,
vertical tab, form feed. -/
def pyIsSpace (c : Char) : Bool :=
  c = ' ' || c = '\t' || c = '\n' || c = '\r' || c = '\x0b' || c = '\x0c'

/-- Match a literal case-insensitively (the patterns carry `re.I`); the
pattern is given in lowercase.  Returns the remaining input on success. -/
def litCI : List Char → List Char → Option (List Char)
  | [], cs => some cs
  | _ :: _, [] => none
  | p :: ps, c :: cs => if c.toLower = p then litCI ps cs else none

/-- Match a literal exactly (case-sensitive). -/
def litEq : List Char → List Char → Option (List Char)
  | [], cs => some cs
  | _ :: _, [] => none
  | p :: ps, c :: cs => if c = p then litEq ps cs else none

/-- Greedy optional single character (`X?` where skipping `X` dooms the
continuation): consume the character if it is next, case-insensitively. -/
def chopOptCI (t : Char) : List Char → List Char
  | [] => []
  | c :: cs => if c.toLower = t then cs else c :: cs

/-- Greedy `\s*` whose continuation cannot start with whitespace. -/
def dropSpaces (cs : List Char) : List Char := cs.dropWhile pyIsSpace

/-- Greedy `\s+` whose continuation cannot start with whitespace. -/
def dropSpaces1 : List Char → Option (List Char)
  | [] => none
  | c :: cs => if pyIsSpace c then some ((c :: cs).dropWhile pyIsSpace) else none

/-! ### EMAIL_PAT: `[A-Za-z0-9._%+\-]+@[A-Za-z0-9.\-]+\.[A-Za-z]{2,}` -/

/-- Backtracking over the greedy `[A-Za-z0-9.\-]+` domain run of `EMAIL_PAT`:
try run length `k+1` (longest first); succeed when a literal `.` follows and
the trailing `[A-Za-z]+` run has length at least 2.  Returns the domain part
consumed before the final dot and the TLD run. -/
def emailDomainTry (rest : List Char) : ℕ → Option (List Char × List Char)
  | 0 => none
  | k + 1 =>
    match rest.drop (k + 1) with
    | '.' :: tail =>
      if 2 ≤ (tail.takeWhile isAlphaChar).length then
        some (rest.take (k + 1), tail.takeWhile isAlphaChar)
      else emailDomainTry rest k
    | _ => emailDomainTry rest k

/-- Match `EMAIL_PAT` at the start of the input, returning the
(local, domain, tld) decomposition of the matched substring.  The local run
is forced maximal because `@` is not a local character. -/
def emailMatchAt (cs : List Char) : Option (List Char × List Char × List Char) :=
  let l := cs.takeWhile isLocalChar
  if l.length = 0 then none
  else
    match cs.drop l.length with
    | '@' :: rest =>
      match emailDomainTry rest ((rest.takeWhile isDomainChar).length) with
      | some (d, t) => some (l, d, t)
      | none => none
    | _ => none

/-- `EMAIL_PAT.search`: leftmost match wins. -/
def emailSearch : List Char → Option (List Char × List Char × List Char)
  | [] => none
  | c :: rest =>
    match emailMatchAt (c :: rest) with
    | some r => some r
    | none => emailSearch rest

/-- One candidate split for `EMAIL_PAT.fullmatch`: domain of length `j`
followed by a literal dot and an all-alphabetic tail of length at least 2
that reaches the end of the string. -/
def domDotCheck (rest : List Char) (j : ℕ) : Bool :=
  match rest.drop j with
  | '.' :: tail => decide (2 ≤ tail.length) && tail.all isAlphaChar
  | _ => false

/-- Disjunction of `domDotCheck` over all domain lengths `1..n`. -/
def domTailFull (rest : List Char) : ℕ → Bool
  | 0 => false
  | k + 1 => domDotCheck rest (k + 1) || domTailFull rest k

/-- `EMAIL_PAT.fullmatch` on a character list. -/
def emailFullmatch (cs : List Char) : Bool :=
  let l := cs.takeWhile isLocalChar
  if l.length = 0 then false
  else
    match cs.drop l.length with
    | '@' :: rest => domTailFull rest ((rest.takeWhile isDomainChar).length)
    | _ => false

/-- `EMAIL_PAT.fullmatch` on a string. -/
def emailFullmatchS (s : String) : Bool := emailFullmatch s.toList

/-! ### OBFUSC_EMAIL_PAT:
`([A-Za-z0-9._%+\-]+)\s*(?:\[?at\]?|\(at\)|@)\s*([A-Za-z0-9.\-]+)\s*(?:\[?dot\]?|\(dot\)|\.)\s*([A-Za-z]{2,})` -/

/-- The `(?:\[?at\]?|\(at\)|@)` connector.  The three alternatives start with
distinct characters, and the optional brackets are forced greedy because the
continuation (`\s*` then a domain character) can match neither `[` nor `]`. -/
def atPart : List Char → Option (List Char)
  | [] => none
  | c :: cs =>
    if c = '[' then (litCI ['a', 't'] cs).map (chopOptCI ']')
    else if c = '(' then litCI ['a', 't', ')'] cs
    else if c = '@' then some cs
    else (litCI ['a', 't'] (c :: cs)).map (chopOptCI ']')

/-- The `(?:\[?dot\]?|\(dot\)|\.)` connector, analogous to `atPart`. -/
def dotPart : List Char → Option (List Char)
  | [] => none
  | c :: cs =>
    if c = '[' then (litCI ['d', 'o', 't'] cs).map (chopOptCI ']')
    else if c = '(' then litCI ['d', 'o', 't', ')'] cs
    else if c = '.' then some cs
    else (litCI ['d', 'o', 't'] (c :: cs)).map (chopOptCI ']')

/-- Tail of `OBFUSC_EMAIL_PAT` after the domain group: `\s*` dot-connector
`\s*` then a greedy `[A-Za-z]{2,}` run. -/
def obfuscTail (dom rest : List Char) : Option (List Char × List Char) :=
  match dotPart (dropSpaces rest) with
  | none => none
  | some r2 =>
    if 2 ≤ ((dropSpaces r2).takeWhile isAlphaChar).length then
      some (dom, (dropSpaces r2).takeWhile isAlphaChar)
    else none

/-- Backtracking over the greedy domain run of `OBFUSC_EMAIL_PAT`
(longest first). -/
def obfuscDomTry (cs : List Char) : ℕ → Option (List Char × List Char)
  | 0 => none
  | k + 1 =>
    match obfuscTail (cs.take (k + 1)) (cs.drop (k + 1)) with
    | some r => some r
    | none => obfuscDomTry cs k

/-- After the at-connector: `\s*` then the domain group and the tail. -/
def obfuscAfterAt (cs : List Char) : Option (List Char × List Char) :=
  let r := dropSpaces cs
  obfuscDomTry r ((r.takeWhile isDomainChar).length)

/-- Backtracking over the greedy local run of `OBFUSC_EMAIL_PAT`
(longest first); the at-connector may begin with `a`, which is a local
character, so shorter local runs must genuinely be tried. -/
def obfuscLocTry (cs : List Char) : ℕ → Option (List Char × List Char × List Char)
  | 0 => none
  | k + 1 =>
    match atPart (dropSpaces (cs.drop (k + 1))) with
    | some r2 =>
      match obfuscAfterAt r2 with
      | some (d, t) => some (cs.take (k + 1), d, t)
      | none => obfuscLocTry cs k
    | none => obfuscLocTry cs k

/-- Match `OBFUSC_EMAIL_PAT` at the start of the input, returning the three
captured groups. -/
def matchObfuscAt (cs : List Char) : Option (List Char × List Char × List Char) :=
  obfuscLocTry cs ((cs.takeWhile isLocalChar).length)

/-- `OBFUSC_EMAIL_PAT.search`: leftmost match wins. -/
def obfuscSearch : List Char → Option (List Char × List Char × List Char)
  | [] => none
  | c :: rest =>
    match matchObfuscAt (c :: rest) with
    | some r => some r
    | none => obfuscSearch rest

/-! ### EXP_PAT: the four years-of-experience alternatives -/

/-- Numeric value of an ASCII digit. -/
def digitVal (c : Char) : ℕ := c.toNat - 48

/-- Greedy `\d{1,2}`: the two-digit reading first, then the one-digit
reading, each with the remaining input. -/
def digitsTry (cs : List Char) : List (ℕ × List Char) :=
  match cs with
  | a :: b :: r =>
    if a.isDigit then
      if b.isDigit then [(digitVal a * 10 + digitVal b, r), (digitVal a, b :: r)]
      else [(digitVal a, b :: r)]
    else []
  | [a] => if a.isDigit then [(digitVal a, [])] else []
  | [] => []

/-- `(?:years?|yrs?)`: `years?` is tried before `yrs?`, and the optional `s`
is forced greedy because the continuation cannot consume an `s`. -/
def yearsWord (cs : List Char) : Option (List Char) :=
  match litCI ['y', 'e', 'a', 'r'] cs with
  | some r => some (chopOptCI 's' r)
  | none => (litCI ['y', 'r'] cs).map (chopOptCI 's')

/-- `(?:of\s+)?`: take the `of` branch when it matches, else skip (skipping
while `of` is present dooms the following literal `experience`). -/
def ofOpt (cs : List Char) : List Char :=
  match litCI ['o', 'f'] cs with
  | some r =>
    match dropSpaces1 r with
    | some r2 => r2
    | none => cs
  | none => cs

/-- Continuation of the `num1` alternative after its digit group:
`\+?\s*(?:years?|yrs?)\s*(?:of\s+)?experience`. -/
def num1Tail (cs : List Char) : Bool :=
  match yearsWord (dropSpaces (chopOptCI '+' cs)) with
  | none => false
  | some r2 =>
    (litCI ['e', 'x', 'p', 'e', 'r', 'i', 'e', 'n', 'c', 'e'] (ofOpt (dropSpaces r2))).isSome

/-- Alternative `num1`: `(\d{1,2}\+?)\s*(?:years?|yrs?)\s*(?:of\s+)?experience`.
The group value is read with the trailing `+` stripped, as in the source. -/
def matchNum1At (cs : List Char) : Option ℕ :=
  match digitsTry cs with
  | [] => none
  | [(n, r)] => if num1Tail r then some n else none
  | (na, ra) :: (nb, rb) :: _ =>
    if num1Tail ra then some na else if num1Tail rb then some nb else none

/-- Continuation of the `num2` alternative after its digit group:
`\s*(?:years?|yrs?)`. -/
def num2Tail (cs : List Char) : Bool := (yearsWord (dropSpaces cs)).isSome

/-- Alternative `num2`: `over\s+(\d{1,2})\s*(?:years?|yrs?)`. -/
def matchNum2At (cs : List Char) : Option ℕ :=
  match litCI ['o', 'v', 'e', 'r'] cs with
  | none => none
  | some r =>
    match dropSpaces1 r with
    | none => none
    | some r2 =>
      match digitsTry r2 with
      | [] => none
      | [(n, rr)] => if num2Tail rr then some n else none
      | (na, ra) :: (nb, rb) :: _ =>
        if num2Tail ra then some na else if num2Tail rb then some nb else none

/-- `19\d{2}|20\d{2}`: a four-digit year starting `19` or `20`.  No word
boundary is required, exactly as in the source pattern. -/
def yearLit : List Char → Option ℕ
  | a :: b :: c :: d :: _ =>
    if ((a = '1' && b = '9') || (a = '2' && b = '0')) && c.isDigit && d.isDigit then
      some (digitVal a * 1000 + digitVal b * 100 + digitVal c * 10 + digitVal d)
    else none
  | _ => none

/-- Alternative `year1`: `since\s+(19\d{2}|20\d{2})`. -/
def matchYear1At (cs : List Char) : Option ℕ :=
  match litCI ['s', 'i', 'n', 'c', 'e'] cs with
  | none => none
  | some r =>
    match dropSpaces1 r with
    | none => none
    | some r2 => yearLit r2

/-- Alternative `year2`: `practicing\s+since\s+(19\d{2}|20\d{2})`. -/
def matchYear2At (cs : List Char) : Option ℕ :=
  match litCI ['p', 'r', 'a', 'c', 't', 'i', 'c', 'i', 'n', 'g'] cs with
  | none => none
  | some r =>
    match dropSpaces1 r with
    | none => none
    | some r2 =>
      match litCI ['s', 'i', 'n', 'c', 'e'] r2 with
      | none => none
      | some r3 =>
        match dropSpaces1 r3 with
        | none => none
        | some r4 => yearLit r4

/-- Which `EXP_PAT` alternative matched, with its captured number. -/
inductive ExpVal where
  | num1 (n : ℕ)
  | num2 (n : ℕ)
  | year1 (y : ℕ)
  | year2 (y : ℕ)
deriving DecidableEq, Repr

/-- The `EXP_PAT` alternation tried at one start position, alternatives in
their written order (their first characters are pairwise distinct, so at most
one alternative can match at a given position). -/
def expAltAt (cs : List Char) : Option ExpVal :=
  match matchNum1At cs with
  | some n => some (ExpVal.num1 n)
  | none =>
    match matchNum2At cs with
    | some n => some (ExpVal.num2 n)
    | none =>
      match matchYear1At cs with
      | some y => some (ExpVal.year1 y)
      | none => (matchYear2At cs).map ExpVal.year2

/-- `EXP_PAT.search`: scan start positions from the left; the leftmost
matching position wins. -/
def expSearch : List Char → Option ExpVal
  | [] => none
  | c :: rest =>
    match expAltAt (c :: rest) with
    | some v => some v
    | none => expSearch rest

/-! ### extract_email_and_exp and _infer_years_from_year -/

/-- `_infer_years_from_year` with the current calendar year made an explicit
parameter `now` (the source reads `datetime.now().year`). -/
def inferYearsFromYear (now year : ℤ) : Option ℤ :=
  if 1970 ≤ year ∧ year ≤ now then some (max 0 (now - year)) else none

/-- The years value computed from a matched `EXP_PAT` alternative, following
the `if em.group(...)` cascade of `extract_email_and_exp`. -/
def expValYears (now : ℤ) : ExpVal → Option ℤ
  | .num1 n => some (n : ℤ)
  | .num2 n => some (n : ℤ)
  | .year1 y => inferYearsFromYear now (y : ℤ)
  | .year2 y => inferYearsFromYear now (y : ℤ)

/-- `_norm_obfuscated`: `f"{m.group(1)}@{m.group(2)}.{m.group(3)}"`. -/
def normObfuscated (l d t : List Char) : String :=
  String.mk (l ++ '@' :: (d ++ '.' :: t))

/-- `EMAIL_PAT.search(text)` with `m.group(0)` reassembled from the
decomposition. -/
def directEmail (text : String) : Option String :=
  (emailSearch text.toList).map (fun x => String.mk (x.1 ++ '@' :: (x.2.1 ++ '.' :: x.2.2)))

/-- The obfuscated-email tier: `OBFUSC_EMAIL_PAT.search` normalized by
`_norm_obfuscated`. -/
def obfuscEmail (text : String) : Option String :=
  (obfuscSearch text.toList).map (fun x => normObfuscated x.1 x.2.1 x.2.2)

/-- The email half of `extract_email_and_exp`: direct pattern first, the
obfuscated pattern only when the direct one found nothing. -/
def emailFromText (text : String) : Option String :=
  if text = "" then none
  else
    match directEmail text with
    | some e => some e
    | none => obfuscEmail text

/-- The years half of `extract_email_and_exp`. -/
def yearsFromText (now : ℤ) (text : String) : Option ℤ :=
  if text = "" then none
  else
    match expSearch text.toList with
    | some v => expValYears now v
    | none => none

/-- `extract_email_and_exp(text)`, with the current year explicit. -/
def extract_email_and_exp (now : ℤ) (text : String) : Option String × Option ℤ :=
  (emailFromText text, yearsFromText now text)

/-! ### crawl_doctor_site

The HTML parsing done by BeautifulSoup is abstracted into a `ParsedPage`:
the anchor `href` attributes in document order, the string-valued `email`
fields found in each JSON-LD `<script>` block (one inner list per block, in
document order), and the visible text produced by `get_text`.  Network
fetching is abstracted into a function `String → Option ParsedPage`
(`none` models a failed or non-200 `fetch_html`).  The enumeration order of
the Python set `candidates` is an explicit parameter `order`: CPython string
hashing is randomized per process, so this order is not determined by the
page content. -/

structure ParsedPage where
  anchors : List String
  jsonldEmails : List (List String)
  text : String
deriving DecidableEq, Repr

/-- Python truthiness of an optional string (`None` and `""` are falsy). -/
def pyTruthyStr : Option String → Bool
  | none => false
  | some s => s ≠ ""

/-- Python truthiness of an optional integer (`None` and `0` are falsy). -/
def pyTruthyInt : Option ℤ → Bool
  | none => false
  | some n => n ≠ 0

/-- Python `x or y` on optional strings: `x` when truthy, else `y`. -/
def pyOrStr (a b : Option String) : Option String :=
  if pyTruthyStr a then a else b

/-- Python `str.strip()` (whitespace only), on the ASCII whitespace class. -/
def pyStrip (s : String) : String :=
  String.mk (((s.toList.dropWhile pyIsSpace).reverse.dropWhile pyIsSpace).reverse)

/-- The mailto tier: scan anchors whose `href` starts with `"mailto:"`, take
the first address (the `href` with its first 7 characters removed) that
fullmatches `EMAIL_PAT`. -/
def mailtoFirst : List String → Option String
  | [] => none
  | h :: rest =>
    if (litEq ("mailto:".toList) h.toList).isSome ∧ emailFullmatch (h.toList.drop 7) then
      some (String.mk (h.toList.drop 7))
    else mailtoFirst rest

/-- The homepage JSON-LD tier: all string email fields of all blocks are
collected (stripped) into one list and its first element is taken. -/
def jsonldFlatHead (tags : List (List String)) : Option String :=
  (tags.flatten.map pyStrip).head?

/-- The homepage email resolution
`email_mailto or (jsonld_emails[0] if jsonld_emails else None) or email_text`. -/
def homeEmail (pg : ParsedPage) : Option String :=
  pyOrStr (mailtoFirst pg.anchors)
    (pyOrStr (jsonldFlatHead pg.jsonldEmails) (emailFromText pg.text))

/-- The subpage JSON-LD scan: per block, the first string email field is
assigned (stripped) and the block loop breaks; the outer loop breaks only
when the assigned email is truthy, so a final falsy assignment sticks. -/
def subJsonld : List (List String) → Option String → Option String
  | [], e => e
  | t :: rest, e =>
    match t.head? with
    | none => subJsonld rest e
    | some s =>
      let s2 := pyStrip s
      if s2 ≠ "" then some s2 else subJsonld rest (some s2)

/-- Processing of one fetched candidate subpage (`crawl_doctor_site` loop
body after `fetch_html` succeeded): mailto tier and JSON-LD tier run only
while the email is falsy; text extraction runs unless both fields are truthy;
the text email is taken only when the current email is falsy, while the years
value is taken only when the current years is `None` (not merely falsy). -/
def subStep (now : ℤ) (pg : ParsedPage) (email : Option String) (years : Option ℤ) :
    Option String × Option ℤ :=
  let email1 :=
    if pyTruthyStr email then email
    else
      match mailtoFirst pg.anchors with
      | some a => some a
      | none => email
  let email2 := if pyTruthyStr email1 then email1 else subJsonld pg.jsonldEmails email1
  if pyTruthyStr email2 ∧ pyTruthyInt years then (email2, years)
  else
    let ey := extract_email_and_exp now pg.text
    let email3 := if ¬ pyTruthyStr email2 ∧ pyTruthyStr ey.1 then ey.1 else email2
    let years3 := if years = none ∧ ey.2 ≠ none then ey.2 else years
    (email3, years3)

/-- The candidate-subpage loop: before each iteration the loop breaks when
both the email and the years value are truthy; otherwise the link is fetched
(counted even when the fetch fails) and, on success, processed by `subStep`. -/
def crawlLoop (now : ℤ) (fetch : String → Option ParsedPage) :
    List String → Option String → Option ℤ → ℕ → Option String × Option ℤ × ℕ
  | [], e, y, n => (e, y, n)
  | link :: rest, e, y, n =>
    if pyTruthyStr e ∧ pyTruthyInt y then (e, y, n)
    else
      match fetch link with
      | none => crawlLoop now fetch rest e y (n + 1)
      | some pg =>
        crawlLoop now fetch rest (subStep now pg e y).1 (subStep now pg e y).2 (n + 1)

/-- Keyword test for candidate subpage links: `any(w in href for w in [...])`
on the lowercased `href`. -/
def contactKeyword (href : String) : Bool :=
  let h := href.toList.map Char.toLower
  [['c','o','n','t','a','c','t'], ['a','b','o','u','t'], ['t','e','a','m'],
   ['d','o','c','t','o','r'], ['d','o','c','t','o','r','s'],
   ['p','r','o','v','i','d','e','r','s'], ['s','t','a','f','f'],
   ['m','e','e','t']].any (fun w => (List.range (h.length + 1)).any
     (fun i => (litEq w (h.drop i)).isSome))

/-- The qualifying candidate links of a page, in document order, before
deduplication by the Python `set` (the model treats hrefs as already absolute,
in which case `urljoin` returns them unchanged). -/
def candidateLinks (pg : ParsedPage) : List String :=
  pg.anchors.filter contactKeyword

/-- `crawl_doctor_site`.  `home` is the fetched and parsed homepage (`none`
for a failed fetch), `order` is the enumeration `list(candidates)` of the
candidate-link set (Python set order: an input, not derived from content),
and `fetch` resolves candidate links.  Returns the email, the years value,
and the number of subpage fetches performed. -/
def crawl_doctor_site (now : ℤ) (home : Option ParsedPage) (order : List String)
    (fetch : String → Option ParsedPage) : Option String × Option ℤ × ℕ :=
  match home with
  | none => (none, none, 0)
  | some pg =>
    crawlLoop now fetch (order.take 8) (homeEmail pg) (yearsFromText now pg.text) 0

/-! ### make_recommendation (app.py) -/

/-- `make_recommendation`.  Ratings are rationals (every IEEE double is a
rational, and the thresholds 4.5 and 4.0 are exactly representable, so
double comparisons and rational comparisons agree); the review count is an
integer. -/
def make_recommendation (rating : Option ℚ) (count : Option ℤ) : String :=
  match rating, count with
  | some r, some c =>
    if c = 0 then "Insufficient data"
    else if 4.5 ≤ r ∧ 50 ≤ c then "Highly recommended"
    else if 4 ≤ r ∧ 10 ≤ c then "Recommended"
    else "Consider with caution"
  | _, _ => "Insufficient data"

/-! ### retry_request (app.py)

The wrapped operation is modelled as a function from the attempt index to an
outcome: success with a value, `requests.HTTPError` with a status code, or a
generic `requests.RequestException` (connectivity/timeout).  `backoff_sleep`
only delays and is irrelevant to the returned value. -/

inductive ReqOutcome where
  | success (v : String)
  | httpError (code : ℕ)
  | reqError
deriving DecidableEq, Repr

/-- The retryable status set `{429, 500, 502, 503, 504}`. -/
def retryableCode (c : ℕ) : Bool :=
  c = 429 || c = 500 || c = 502 || c = 503 || c = 504

/-- An outcome on which `retry_request` would retry (when attempts remain). -/
def isRetryableOutcome : ReqOutcome → Bool
  | .success _ => false
  | .httpError c => retryableCode c
  | .reqError => true

/-- Result of `retry_request`, carrying the number of invocations performed:
a returned value, a re-raised failure, or the unreachable-for-positive-tries
trailing `RuntimeError`. -/
inductive RetryResult where
  | ok (v : String) (calls : ℕ)
  | raised (o : ReqOutcome) (calls : ℕ)
  | exhausted (calls : ℕ)
deriving DecidableEq, Repr

/-- The `for attempt in range(tries)` loop of `retry_request`.  `fuel` is the
number of attempts remaining (`tries - attempt`); `0 < fuel - 1` is the
source's `attempt < tries - 1` guard. -/
def retryGo (op : ℕ → ReqOutcome) : ℕ → ℕ → RetryResult
  | 0, attempt => .exhausted attempt
  | fuel + 1, attempt =>
    match op attempt with
    | .success v => .ok v (attempt + 1)
    | .httpError c =>
      if retryableCode c ∧ 0 < fuel then retryGo op fuel (attempt + 1)
      else .raised (.httpError c) (attempt + 1)
    | .reqError =>
      if 0 < fuel then retryGo op fuel (attempt + 1)
      else .raised .reqError (attempt + 1)

/-- `retry_request(fn, tries=tries)`. -/
def retry_request (op : ℕ → ReqOutcome) (tries : ℕ) : RetryResult :=
  retryGo op tries 0

/-! ### paginate_text_search (app.py)

The provider is modelled as a function from the page-fetch index to a
response: a list of places and whether a continuation token was present
(`nextPageToken` truthiness).  `retry_request` around each page fetch and the
1.5 s token delay do not affect the collected results. -/

structure PageResp where
  places : List String
  nextToken : Bool

/-- Result of a paginator run: the (truncated) results, the number of pages
fetched, whether the loop ended on an absent continuation token, and the
trace of `remaining = total_needed - len(results)` at each page fetch. -/
structure PaginateOut where
  results : List String
  pagesUsed : ℕ
  noTokenStop : Bool
  remainders : List ℕ

/-- The clamp `max(1, min(page_size, 20))` applied inside `text_search_page`. -/
def textSearchPageSize (p : ℕ) : ℕ := max 1 (min p 20)

/-- The `while len(results) < total_needed and pages < 25` loop of
`paginate_text_search`; `fuel` counts the pages still allowed (25 at entry). -/
def paginateGo (provider : ℕ → PageResp) (total : ℕ) :
    ℕ → ℕ → List String → List ℕ → List String × ℕ × Bool × List ℕ
  | 0, idx, acc, tr => (acc, idx, false, tr)
  | fuel + 1, idx, acc, tr =>
    if total ≤ acc.length then (acc, idx, false, tr)
    else if (provider idx).nextToken then
      paginateGo provider total fuel (idx + 1) (acc ++ (provider idx).places)
        (tr ++ [total - acc.length])
    else (acc ++ (provider idx).places, idx + 1, true, tr ++ [total - acc.length])

/-- `paginate_text_search(query, total_needed)`: run the loop with the
25-page ceiling and return `results[:total_needed]`. -/
def paginate_text_search (provider : ℕ → PageResp) (total : ℕ) : PaginateOut :=
  let r := paginateGo provider total 25 0 [] []
  ⟨r.1.take total, r.2.1, r.2.2.1, r.2.2.2⟩

/-! ### Deduplication (app.py candidate admission, scraper.py run)

Candidates carry an optional place id (`p.get("id")`); in `scraper.py` each
admitted id additionally either produces a row or is dropped when the details
call fails. -/

/-- The admission loop body of `app.py`: `if pid and pid not in seen and pid
not in cached_ids: seen.add(pid); fetched_places.append(p)`, breaking once
the target is reached.  Returns the updated seen set and the admitted ids. -/
def appInner (target : ℕ) (cached : List String) :
    List (Option String) → List String → List String → List String × List String
  | [], seen, fetched => (seen, fetched)
  | p :: rest, seen, fetched =>
    match p with
    | none => appInner target cached rest seen fetched
    | some pid =>
      if pid ≠ "" ∧ pid ∉ seen ∧ pid ∉ cached then
        if target ≤ (fetched ++ [pid]).length then (pid :: seen, fetched ++ [pid])
        else appInner target cached rest (pid :: seen) (fetched ++ [pid])
      else appInner target cached rest seen fetched

/-- The outer `while len(fetched_places) < target_total` loop over search
batches. -/
def appOuter (target : ℕ) (cached : List String) :
    List (List (Option String)) → List String → List String → List String × List String
  | [], seen, fetched => (seen, fetched)
  | b :: rest, seen, fetched =>
    if target ≤ fetched.length then (seen, fetched)
    else
      appOuter target cached rest (appInner target cached b seen fetched).1
        (appInner target cached b seen fetched).2

/-- The ids admitted past the shared seen-set in one `app.py` run. -/
def appFetchedIds (target : ℕ) (cached : List String)
    (batches : List (List (Option String))) : List String :=
  (appOuter target cached batches [] []).2

/-- The `scraper.py` `run` loop over all candidates of all queries/pages:
`if not pid or pid in seen: continue; seen.add(pid)`, then a row is emitted
only when the details call succeeds (the second component of the pair).
Returns the emitted row ids and the final seen set. -/
def scraperRun : List (Option String × Bool) → List String → List String × List String
  | [], seen => ([], seen)
  | (pid?, ok) :: rest, seen =>
    match pid? with
    | none => scraperRun rest seen
    | some pid =>
      if pid = "" ∨ pid ∈ seen then scraperRun rest seen
      else
        (if ok then pid :: (scraperRun rest (pid :: seen)).1
         else (scraperRun rest (pid :: seen)).1,
         (scraperRun rest (pid :: seen)).2)

/-! ## Helper lemmas -/

/-- Every element of a `takeWhile` run satisfies the predicate. -/
theorem all_takeWhile {α : Type _} (p : α → Bool) (l : List α) :
    (l.takeWhile p).all p = true := by
  induction l with
  | nil => rfl
  | cons c cs ih =>
    rw [List.takeWhile_cons]
    by_cases h : p c = true
    · rw [if_pos h]; simp [h, ih]
    · rw [if_neg h]; rfl

/-- A `takeWhile` run is no longer than the list. -/
theorem takeWhile_length_le_self {α : Type _} (p : α → Bool) (l : List α) :
    (l.takeWhile p).length ≤ l.length := by
  induction l with
  | nil => simp
  | cons c cs ih =>
    rw [List.takeWhile_cons]
    by_cases h : p c = true
    · rw [if_pos h]; simpa using ih
    · rw [if_neg h]; simp

/-- `takeWhile` walks through a prefix that wholly satisfies the predicate. -/
theorem takeWhile_append_all {α : Type _} (p : α → Bool) (l r : List α)
    (h : l.all p = true) : (l ++ r).takeWhile p = l ++ r.takeWhile p := by
  induction l with
  | nil => simp
  | cons c cs ih =>
    simp only [List.all_cons, Bool.and_eq_true] at h
    simp [List.takeWhile_cons, h.1, ih h.2]

/-- `takeWhile` stops exactly at the first failing element. -/
theorem takeWhile_append_stop {α : Type _} (p : α → Bool) (l r : List α) (c : α)
    (h : l.all p = true) (hc : p c = false) :
    (l ++ c :: r).takeWhile p = l := by
  rw [takeWhile_append_all p l (c :: r) h, List.takeWhile_cons, hc]
  simp

/-- A take of at most the `takeWhile` length satisfies the predicate. -/
theorem take_all_of_le_takeWhile {α : Type _} (p : α → Bool) :
    ∀ (l : List α) (j : ℕ), j ≤ (l.takeWhile p).length → (l.take j).all p = true := by
  intro l
  induction l with
  | nil => intro j _; simp
  | cons c cs ih =>
    intro j hj
    by_cases hc : p c = true
    · rw [List.takeWhile_cons, if_pos hc] at hj
      cases j with
      | zero => simp
      | succ k =>
        simp only [List.length_cons, Nat.succ_le_succ_iff] at hj
        simp [List.take_succ_cons, hc, ih k hj]
    · rw [List.takeWhile_cons, if_neg hc] at hj
      simp only [List.length_nil, Nat.le_zero] at hj
      subst hj; simp

/-- An all-satisfying prefix is no longer than the `takeWhile` run. -/
theorem length_le_takeWhile_append {α : Type _} (p : α → Bool) (l r : List α)
    (h : l.all p = true) : l.length ≤ ((l ++ r).takeWhile p).length := by
  rw [takeWhile_append_all p l r h, List.length_append]
  omega

/-! ## Specification of the EMAIL_PAT matchers -/

/-- Anything found by `emailDomainTry` is a nonempty take of the input
followed by a dot and an alphabetic tail of length at least 2. -/
theorem emailDomainTry_spec (rest : List Char) :
    ∀ (n : ℕ) (d t : List Char), emailDomainTry rest n = some (d, t) →
      ∃ j, 1 ≤ j ∧ j ≤ n ∧ d = rest.take j ∧
        ∃ tail, rest.drop j = '.' :: tail ∧ t = tail.takeWhile isAlphaChar ∧ 2 ≤ t.length := by
  intro n
  induction n with
  | zero => intro d t h; simp [emailDomainTry] at h
  | succ k ih =>
    intro d t h
    unfold emailDomainTry at h
    split at h
    next tail heq =>
      split at h
      next hlen =>
        injection h with h2
        injection h2 with hd ht
        exact ⟨k + 1, by omega, by omega, hd.symm, tail, heq, by rw [← ht], by rw [← ht]; exact hlen⟩
      next =>
        obtain ⟨j, h1, h2, h3, h4⟩ := ih d t h
        exact ⟨j, h1, by omega, h3, h4⟩
    next =>
      obtain ⟨j, h1, h2, h3, h4⟩ := ih d t h
      exact ⟨j, h1, by omega, h3, h4⟩

/-- Character-class constraints on any decomposition found by `emailMatchAt`. -/
theorem emailMatchAt_spec (cs l d t : List Char)
    (h : emailMatchAt cs = some (l, d, t)) :
    l ≠ [] ∧ l.all isLocalChar = true ∧ d ≠ [] ∧ d.all isDomainChar = true ∧
      2 ≤ t.length ∧ t.all isAlphaChar = true := by
  simp only [emailMatchAt] at h
  split at h
  next => exact absurd h (by simp)
  next hlen =>
    split at h
    next rest heq =>
      split at h
      next d2 t2 heq2 =>
        injection h with h2
        injection h2 with hl h3
        injection h3 with hd ht
        subst hl; subst hd; subst ht
        obtain ⟨j, hj1, hj2, hjd, tail, htail, htw, hlen2⟩ := emailDomainTry_spec rest _ d2 t2 heq2
        refine ⟨?_, all_takeWhile _ _, ?_, ?_, hlen2, ?_⟩
        · intro hnil
          rw [hnil] at hlen
          exact hlen rfl
        · subst hjd
          intro hnil
          have hle : j ≤ rest.length :=
            le_trans hj2 (le_trans (takeWhile_length_le_self _ _) (le_refl _))
          have : (rest.take j).length = j := by
            rw [List.length_take]; omega
          rw [hnil] at this
          simp at this; omega
        · subst hjd
          exact take_all_of_le_takeWhile isDomainChar rest j hj2
        · rw [htw]; exact all_takeWhile _ _
      next => exact absurd h (by simp)
    next => exact absurd h (by simp)

/-- Character-class constraints carry over to `emailSearch` results. -/
theorem emailSearch_spec :
    ∀ (cs l d t : List Char), emailSearch cs = some (l, d, t) →
      l ≠ [] ∧ l.all isLocalChar = true ∧ d ≠ [] ∧ d.all isDomainChar = true ∧
        2 ≤ t.length ∧ t.all isAlphaChar = true := by
  intro cs
  induction cs with
  | nil => intro l d t h; simp [emailSearch] at h
  | cons c rest ih =>
    intro l d t h
    unfold emailSearch at h
    split at h
    next r heq =>
      injection h with h2
      subst h2
      exact emailMatchAt_spec _ _ _ _ heq
    next => exact ih l d t h

/-! ## Specification of the OBFUSC_EMAIL_PAT matchers -/

/-- The tail matcher only certifies an alphabetic TLD of length at least 2
and returns the domain it was given. -/
theorem obfuscTail_spec (dom rest d t : List Char)
    (h : obfuscTail dom rest = some (d, t)) :
    d = dom ∧ 2 ≤ t.length ∧ t.all isAlphaChar = true := by
  unfold obfuscTail at h
  split at h
  next => exact absurd h (by simp)
  next r2 heq =>
    split at h
    next hlen =>
      injection h with h2
      injection h2 with hd ht
      exact ⟨hd.symm, by rw [← ht]; exact hlen, by rw [← ht]; exact all_takeWhile _ _⟩
    next => exact absurd h (by simp)

/-- Anything found by `obfuscDomTry` has a nonempty take of the input as its
domain and a well-formed TLD. -/
theorem obfuscDomTry_spec (cs : List Char) :
    ∀ (n : ℕ) (d t : List Char), obfuscDomTry cs n = some (d, t) →
      (∃ j, 1 ≤ j ∧ j ≤ n ∧ d = cs.take j) ∧ 2 ≤ t.length ∧ t.all isAlphaChar = true := by
  intro n
  induction n with
  | zero => intro d t h; simp [obfuscDomTry] at h
  | succ k ih =>
    intro d t h
    unfold obfuscDomTry at h
    split at h
    next r heq =>
      injection h with h2
      subst h2
      obtain ⟨hd, hlen, hall⟩ := obfuscTail_spec _ _ _ _ heq
      exact ⟨⟨k + 1, by omega, by omega, hd⟩, hlen, hall⟩
    next =>
      obtain ⟨⟨j, h1, h2, h3⟩, h4, h5⟩ := ih d t h
      exact ⟨⟨j, h1, by omega, h3⟩, h4, h5⟩

/-- Class constraints on the domain and TLD found after the at-connector. -/
theorem obfuscAfterAt_spec (cs d t : List Char)
    (h : obfuscAfterAt cs = some (d, t)) :
    d ≠ [] ∧ d.all isDomainChar = true ∧ 2 ≤ t.length ∧ t.all isAlphaChar = true := by
  simp only [obfuscAfterAt] at h
  obtain ⟨⟨j, hj1, hj2, hjd⟩, hlen, hall⟩ := obfuscDomTry_spec _ _ d t h
  subst hjd
  refine ⟨?_, take_all_of_le_takeWhile isDomainChar _ j hj2, hlen, hall⟩
  intro hnil
  have hle : j ≤ (dropSpaces cs).length := le_trans hj2 (takeWhile_length_le_self _ _)
  have : ((dropSpaces cs).take j).length = j := by
    rw [List.length_take]; omega
  rw [hnil] at this
  simp at this; omega

/-- Class constraints on all three groups found by `obfuscLocTry`. -/
theorem obfuscLocTry_spec (cs : List Char) :
    ∀ (n : ℕ) (l d t : List Char), obfuscLocTry cs n = some (l, d, t) →
      (∃ j, 1 ≤ j ∧ j ≤ n ∧ l = cs.take j) ∧
        (d ≠ [] ∧ d.all isDomainChar = true) ∧ 2 ≤ t.length ∧ t.all isAlphaChar = true := by
  intro n
  induction n with
  | zero => intro l d t h; simp [obfuscLocTry] at h
  | succ k ih =>
    intro l d t h
    unfold obfuscLocTry at h
    split at h
    next r2 heq =>
      split at h
      next d2 t2 heq2 =>
        injection h with h2
        injection h2 with hl h3
        injection h3 with hd ht
        subst hl; subst hd; subst ht
        obtain ⟨hd2, hall2, hlen2, halpha2⟩ := obfuscAfterAt_spec _ _ _ heq2
        exact ⟨⟨k + 1, by omega, by omega, rfl⟩, ⟨hd2, hall2⟩, hlen2, halpha2⟩
      next =>
        obtain ⟨⟨j, h1, h2, h3⟩, h4, h5⟩ := ih l d t h
        exact ⟨⟨j, h1, by omega, h3⟩, h4, h5⟩
    next =>
      obtain ⟨⟨j, h1, h2, h3⟩, h4, h5⟩ := ih l d t h
      exact ⟨⟨j, h1, by omega, h3⟩, h4, h5⟩

/-- Class constraints on the groups of a `matchObfuscAt` match. -/
theorem matchObfuscAt_spec (cs l d t : List Char)
    (h : matchObfuscAt cs = some (l, d, t)) :
    l ≠ [] ∧ l.all isLocalChar = true ∧ d ≠ [] ∧ d.all isDomainChar = true ∧
      2 ≤ t.length ∧ t.all isAlphaChar = true := by
  unfold matchObfuscAt at h
  obtain ⟨⟨j, hj1, hj2, hjl⟩, ⟨hd, hda⟩, hlen, halpha⟩ := obfuscLocTry_spec cs _ l d t h
  subst hjl
  refine ⟨?_, take_all_of_le_takeWhile isLocalChar cs j hj2, hd, hda, hlen, halpha⟩
  intro hnil
  have hle : j ≤ cs.length := le_trans hj2 (takeWhile_length_le_self _ _)
  have : (cs.take j).length = j := by
    rw [List.length_take]; omega
  rw [hnil] at this
  simp at this; omega

/-- Class constraints carry over to `obfuscSearch` results. -/
theorem obfuscSearch_spec :
    ∀ (cs l d t : List Char), obfuscSearch cs = some (l, d, t) →
      l ≠ [] ∧ l.all isLocalChar = true ∧ d ≠ [] ∧ d.all isDomainChar = true ∧
        2 ≤ t.length ∧ t.all isAlphaChar = true := by
  intro cs
  induction cs with
  | nil => intro l d t h; simp [obfuscSearch] at h
  | cons c rest ih =>
    intro l d t h
    unfold obfuscSearch at h
    split at h
    next r heq =>
      injection h with h2
      subst h2
      exact matchObfuscAt_spec _ _ _ _ heq
    next => exact ih l d t h

/-! ## EMAIL_PAT.fullmatch from the parts -/

/-- One successful dot split certifies the whole `domTailFull` disjunction. -/
theorem domTailFull_of_check (rest : List Char) (j : ℕ) (hj1 : 1 ≤ j) :
    ∀ n, j ≤ n → domDotCheck rest j = true → domTailFull rest n = true := by
  intro n
  induction n with
  | zero => intro h _; omega
  | succ k ih =>
    intro hle hc
    unfold domTailFull
    by_cases hjk : j = k + 1
    · subst hjk; rw [hc]; simp
    · rw [ih (by omega) hc]; simp

/-- A string assembled from a nonempty local part, a nonempty domain part and
an alphabetic TLD of length at least 2 fullmatches `EMAIL_PAT`. -/
theorem fullmatch_of_parts (l d t : List Char) (hl : l ≠ []) (hla : l.all isLocalChar = true)
    (hd : d ≠ []) (hda : d.all isDomainChar = true) (ht2 : 2 ≤ t.length)
    (hta : t.all isAlphaChar = true) :
    emailFullmatch (l ++ '@' :: (d ++ '.' :: t)) = true := by
  have htw : (l ++ '@' :: (d ++ '.' :: t)).takeWhile isLocalChar = l :=
    takeWhile_append_stop isLocalChar l _ '@' hla (by decide)
  simp only [emailFullmatch, htw]
  rw [if_neg (by simpa using hl)]
  rw [List.drop_left]
  apply domTailFull_of_check _ d.length (by simpa using List.length_pos.mpr hd)
  · exact length_le_takeWhile_append isDomainChar d ('.' :: t) hda
  · unfold domDotCheck
    rw [List.drop_left]
    simp [ht2, hta]

/-! ## Claim C10: every extracted email fullmatches EMAIL_PAT -/

/-- C10.  Every non-`None` email returned by `extract_email_and_exp` is
syntactically well-formed: it fullmatches `EMAIL_PAT`.  A direct plain-text
match satisfies the pattern by construction, and an obfuscated match is
normalized by `_norm_obfuscated` into `local@domain.tld`, whose parts satisfy
the corresponding character classes, so the normalized form also fullmatches
the pattern; the text tiers never emit an obfuscated or otherwise non-standard
string. -/
theorem extracted_email_wellformed (now : ℤ) (text : String) (e : String)
    (h : (extract_email_and_exp now text).1 = some e) :
    emailFullmatchS e = true := by
  have h2 : emailFromText text = some e := h
  unfold emailFromText at h2
  split at h2
  next => exact absurd h2 (by simp)
  next =>
    split at h2
    next e2 heq =>
      injection h2 with h3
      subst h3
      unfold directEmail at heq
      rw [Option.map_eq_some'] at heq
      obtain ⟨⟨l, d, t⟩, hsearch, hglue⟩ := heq
      obtain ⟨h1, h2, h3, h4, h5, h6⟩ := emailSearch_spec _ l d t hsearch
      rw [← hglue]
      exact fullmatch_of_parts l d t h1 h2 h3 h4 h5 h6
    next heq =>
      unfold obfuscEmail at h2
      rw [Option.map_eq_some'] at h2
      obtain ⟨⟨l, d, t⟩, hsearch, hglue⟩ := h2
      obtain ⟨h1, h2, h3, h4, h5, h6⟩ := obfuscSearch_spec _ l d t hsearch
      rw [← hglue]
      exact fullmatch_of_parts l d t h1 h2 h3 h4 h5 h6

/-- Witness for C10 at concrete inputs: a direct plain-text extraction and an
obfuscated extraction, both fullmatching `EMAIL_PAT`. -/
theorem extracted_email_wellformed_witness :
    emailFullmatchS "c@d.com" = true ∧ emailFullmatchS "x@y.com" = true :=
  ⟨extracted_email_wellformed 0 "c@d.com" "c@d.com" (by decide),
   extracted_email_wellformed 0 "x [at] y [dot] com" "x@y.com" (by decide)⟩

/-! ## Claim C2: email tier priority -/

/-- A string passing `EMAIL_PAT.fullmatch` is nonempty. -/
theorem emailFullmatch_nonempty (cs : List Char) (h : emailFullmatch cs = true) :
    cs ≠ [] := by
  intro he
  subst he
  simp [emailFullmatch] at h

/-- Any address accepted by the mailto scan passed `EMAIL_PAT.fullmatch`. -/
theorem mailtoFirst_spec :
    ∀ (anchors : List String) (m : String), mailtoFirst anchors = some m →
      emailFullmatchS m = true := by
  intro anchors
  induction anchors with
  | nil => intro m h; simp [mailtoFirst] at h
  | cons a rest ih =>
    intro m h
    unfold mailtoFirst at h
    split at h
    next hc =>
      injection h with h2
      subst h2
      exact hc.2
    next => exact ih m h

/-- A mailto match is Python-truthy (nonempty). -/
theorem mailtoFirst_truthy (anchors : List String) (m : String)
    (h : mailtoFirst anchors = some m) : pyTruthyStr (some m) = true := by
  have hfm := mailtoFirst_spec anchors m h
  have hne : m ≠ "" := by
    intro he
    subst he
    rw [(by decide : emailFullmatchS "" = false)] at hfm
    cases hfm
  simp [pyTruthyStr, hne]

/-- C2 (amended).  The homepage email resolution follows the strict tier
order mailto anchor > JSON-LD email field > plain-text `EMAIL_PAT` match >
obfuscated pattern normalized, where a tier determines the result whenever it
has a Python-truthy (nonempty) match: a validated mailto address always wins;
with no mailto match a nonempty first JSON-LD email wins; with neither, a
direct text match wins; with none of those, the normalized obfuscated match
is used.  (An empty-string JSON-LD email field falls through to lower tiers —
see the counterexample.) -/
theorem email_tier_priority_nonempty (pg : ParsedPage) :
    (∀ m, mailtoFirst pg.anchors = some m → homeEmail pg = some m) ∧
    (mailtoFirst pg.anchors = none →
      ∀ e, jsonldFlatHead pg.jsonldEmails = some e → e ≠ "" → homeEmail pg = some e) ∧
    (mailtoFirst pg.anchors = none → pyTruthyStr (jsonldFlatHead pg.jsonldEmails) = false →
      ∀ t, directEmail pg.text = some t → homeEmail pg = some t) ∧
    (mailtoFirst pg.anchors = none → pyTruthyStr (jsonldFlatHead pg.jsonldEmails) = false →
      directEmail pg.text = none →
      ∀ o, obfuscEmail pg.text = some o → homeEmail pg = some o) := by
  refine ⟨?_, ?_, ?_, ?_⟩
  · intro m hm
    have ht := mailtoFirst_truthy pg.anchors m hm
    simp [homeEmail, pyOrStr, hm, ht]
  · intro hm e hj hne
    simp [homeEmail, pyOrStr, hm, hj, pyTruthyStr, hne]
  · intro hm hj t ht
    have htext : pg.text ≠ "" := by
      intro he
      rw [he, (by decide : directEmail "" = none)] at ht
      cases ht
    have hemail : emailFromText pg.text = some t := by
      unfold emailFromText
      rw [if_neg htext, ht]
    unfold homeEmail pyOrStr
    rw [hm, if_neg (by simp [pyTruthyStr]), if_neg (by simp [hj])]
    exact hemail
  · intro hm hj hd o ho
    have htext : pg.text ≠ "" := by
      intro he
      rw [he, (by decide : obfuscEmail "" = none)] at ho
      cases ho
    have hemail : emailFromText pg.text = some o := by
      unfold emailFromText
      rw [if_neg htext, hd]
      exact ho
    unfold homeEmail pyOrStr
    rw [hm, if_neg (by simp [pyTruthyStr]), if_neg (by simp [hj])]
    exact hemail

/-- Witness for C2 at concrete pages, one per tier.  The first conjunct is
the spec's own scenario: a page with mailto anchor `a@b.com` and obfuscated
text `x [at] y [dot] com` resolves to `a@b.com`. -/
theorem email_tier_priority_nonempty_witness :
    homeEmail (ParsedPage.mk ["mailto:a@b.com"] [] "x [at] y [dot] com") = some "a@b.com" ∧
    homeEmail (ParsedPage.mk [] [["e@f.gh"]] "zz") = some "e@f.gh" ∧
    homeEmail (ParsedPage.mk [] [] "c@d.com") = some "c@d.com" ∧
    homeEmail (ParsedPage.mk [] [] "x [at] y [dot] com") = some "x@y.com" :=
  ⟨(email_tier_priority_nonempty (ParsedPage.mk ["mailto:a@b.com"] [] "x [at] y [dot] com")).1
      "a@b.com" (by decide),
   (email_tier_priority_nonempty (ParsedPage.mk [] [["e@f.gh"]] "zz")).2.1
      (by decide) "e@f.gh" (by decide) (by decide),
   (email_tier_priority_nonempty (ParsedPage.mk [] [] "c@d.com")).2.2.1
      (by decide) (by decide) "c@d.com" (by decide),
   (email_tier_priority_nonempty (ParsedPage.mk [] [] "x [at] y [dot] com")).2.2.2
      (by decide) (by decide) (by decide) "x@y.com" (by decide)⟩

/-- Counterexample to C2 as stated: on a page whose only JSON-LD email field
is the empty string and whose text contains `c@d.com`, the structured-data
tier has a match (`""`), yet the resolved email is the lower-tier text match
`c@d.com`, not `""` — the `or`-chain skips falsy matches, so the strict
claim "whenever a higher tier has a match, the result equals that tier's
match" fails. -/
theorem email_tier_empty_jsonld_cex :
    mailtoFirst (ParsedPage.mk [] [[""]] "c@d.com").anchors = none ∧
    jsonldFlatHead (ParsedPage.mk [] [[""]] "c@d.com").jsonldEmails = some "" ∧
    homeEmail (ParsedPage.mk [] [[""]] "c@d.com") = some "c@d.com" ∧
    ("c@d.com" : String) ≠ "" := by
  exact ⟨by decide, by decide, by decide, by decide⟩

/-! ## Claim C3: years-of-experience heuristic order -/

/-- The `EXP_PAT` scan returns the alternative matching at the leftmost
matching start position. -/
theorem expSearch_eq_of_leftmost :
    ∀ (cs : List Char) (i : ℕ) (v : ExpVal),
      (∀ j, j < i → expAltAt (cs.drop j) = none) →
      expAltAt (cs.drop i) = some v → expSearch cs = some v := by
  intro cs i
  induction i generalizing cs with
  | zero =>
    intro v _ hi
    rw [List.drop_zero] at hi
    cases cs with
    | nil => rw [(by decide : expAltAt ([] : List Char) = none)] at hi; cases hi
    | cons c r =>
      unfold expSearch
      rw [hi]
  | succ k ih =>
    intro v hnone hi
    have h0 : expAltAt cs = none := by
      have h1 := hnone 0 (Nat.succ_pos k)
      rwa [List.drop_zero] at h1
    cases cs with
    | nil =>
      rw [List.drop_nil, (by decide : expAltAt ([] : List Char) = none)] at hi
      cases hi
    | cons c r =>
      unfold expSearch
      rw [h0]
      show expSearch r = some v
      apply ih r v
      · intro j hj
        have h1 := hnone (j + 1) (by omega)
        rwa [List.drop_succ_cons] at h1
      · rwa [List.drop_succ_cons] at hi

/-- C3 (amended).  The years value is produced by the heuristic matching at
the leftmost position of the text: if no `EXP_PAT` alternative matches at any
position before `i` and one matches at position `i`, its value is the result.
The written order of the four alternatives can only break ties at a single
start position (and their first characters are pairwise distinct, so even
that never arises); it does not override an earlier-positioned match of a
later-listed heuristic. -/
theorem exp_leftmost_heuristic_wins (now : ℤ) (text : String) (i : ℕ) (v : ExpVal)
    (hne : text ≠ "")
    (hnone : ∀ j, j < i → expAltAt (text.toList.drop j) = none)
    (hi : expAltAt (text.toList.drop i) = some v) :
    yearsFromText now text = expValYears now v := by
  unfold yearsFromText
  rw [if_neg hne, expSearch_eq_of_leftmost text.toList i v hnone hi]

/-- Witness for the amended C3 at a concrete text matching the `num1`
heuristic at position 0. -/
theorem exp_leftmost_heuristic_wins_witness :
    yearsFromText 2024 "21 years experience" = some 21 := by
  have h := exp_leftmost_heuristic_wins 2024 "21 years experience" 0 (ExpVal.num1 21)
    (by decide) (fun j hj => absurd hj (Nat.not_lt_zero j)) (by decide)
  exact h.trans (by decide)

/-- Counterexample to C3 as stated: in
`"since 2005 and 10 years experience"` (current year 2026) the first-listed
heuristic `"<N> years experience"` matches in the text (at position 15,
value 10), but the code returns 21 = 2026 − 2005 from the later-listed
`"since <YYYY>"` heuristic, because its match starts further left.  Priority
in the listed order does not win over position. -/
theorem exp_priority_order_cex :
    yearsFromText 2026 "since 2005 and 10 years experience" = some 21 ∧
    expAltAt (("since 2005 and 10 years experience").toList.drop 15) =
      some (ExpVal.num1 10) ∧
    expValYears 2026 (ExpVal.num1 10) = some 10 ∧
    some (21 : ℤ) ≠ some (10 : ℤ) := by
  exact ⟨by decide, by decide, by decide, by decide⟩

/-! ## Claim C4: recommendation tiers -/

/-- C4.  The recommendation tier: with a non-null rating and count,
rating ≥ 4.5 and count ≥ 50 give "Highly recommended"; otherwise
rating ≥ 4.0 and count ≥ 10 give "Recommended"; otherwise any positive count
gives "Consider with caution"; a null rating, null count or zero count gives
"Insufficient data". -/
theorem make_recommendation_tiers (r : ℚ) (c : ℤ) :
    (4.5 ≤ r → 50 ≤ c → make_recommendation (some r) (some c) = "Highly recommended") ∧
    (¬(4.5 ≤ r ∧ 50 ≤ c) → 4 ≤ r → 10 ≤ c →
      make_recommendation (some r) (some c) = "Recommended") ∧
    (¬(4.5 ≤ r ∧ 50 ≤ c) → ¬(4 ≤ r ∧ 10 ≤ c) → 0 < c →
      make_recommendation (some r) (some c) = "Consider with caution") ∧
    (∀ c2 : Option ℤ, make_recommendation none c2 = "Insufficient data") ∧
    make_recommendation (some r) none = "Insufficient data" ∧
    make_recommendation (some r) (some 0) = "Insufficient data" := by
  refine ⟨?_, ?_, ?_, ?_, ?_, ?_⟩
  · intro h1 h2
    simp only [make_recommendation]
    rw [if_neg (by omega), if_pos ⟨h1, h2⟩]
  · intro h0 h1 h2
    simp only [make_recommendation]
    rw [if_neg (by omega), if_neg h0, if_pos ⟨h1, h2⟩]
  · intro h0 h1 h2
    simp only [make_recommendation]
    rw [if_neg (by omega), if_neg h0, if_neg h1]
  · intro c2; cases c2 <;> rfl
  · rfl
  · simp [make_recommendation]

/-- Witness for C4: the spec's recommendation table, obtained by applying the
tier theorem at (4.6, 60), (4.2, 20), (3.0, 5) and a null rating. -/
theorem make_recommendation_tiers_witness :
    make_recommendation (some 4.6) (some 60) = "Highly recommended" ∧
    make_recommendation (some 4.2) (some 20) = "Recommended" ∧
    make_recommendation (some 3) (some 5) = "Consider with caution" ∧
    make_recommendation none (some 7) = "Insufficient data" :=
  ⟨(make_recommendation_tiers 4.6 60).1 (by norm_num) (by norm_num),
   (make_recommendation_tiers 4.2 20).2.1
     (fun hc => absurd hc.1 (by norm_num)) (by norm_num) (by norm_num),
   (make_recommendation_tiers 3 5).2.2.1
     (fun hc => absurd hc.1 (by norm_num)) (fun hc => absurd hc.1 (by norm_num))
     (by norm_num),
   (make_recommendation_tiers 3 5).2.2.2.1 (some 7)⟩

/-! ## Claim C5: the retry law -/

/-- If the first attempts fail retryably and attempt `k` succeeds within the
budget, the loop returns the success after exactly `k + 1` invocations. -/
theorem retryGo_ok (op : ℕ → ReqOutcome) (k : ℕ) (v : String)
    (hk : ∀ i, i < k → isRetryableOutcome (op i) = true) (hs : op k = .success v) :
    ∀ fuel attempt, attempt ≤ k → k < attempt + fuel →
      retryGo op fuel attempt = .ok v (k + 1) := by
  intro fuel
  induction fuel with
  | zero => intro attempt h1 h2; omega
  | succ f ih =>
    intro attempt h1 h2
    rcases Nat.eq_or_lt_of_le h1 with heq | hlt
    · subst heq
      simp [retryGo, hs]
    · have hr := hk attempt hlt
      cases hop : op attempt with
      | success w => rw [hop] at hr; simp [isRetryableOutcome] at hr
      | httpError c2 =>
        rw [hop] at hr
        simp only [isRetryableOutcome] at hr
        simp only [retryGo, hop]
        rw [if_pos ⟨hr, by omega⟩]
        exact ih (attempt + 1) (by omega) (by omega)
      | reqError =>
        simp only [retryGo, hop]
        rw [if_pos (by omega : 0 < f)]
        exact ih (attempt + 1) (by omega) (by omega)

/-- If every attempt before the last fails retryably and the last fails in
any way, the loop raises the last failure after all `tries` invocations. -/
theorem retryGo_raise_last (op : ℕ → ReqOutcome) (tries : ℕ)
    (hfail : ∀ w, op (tries - 1) ≠ .success w)
    (hk : ∀ i, i < tries - 1 → isRetryableOutcome (op i) = true) :
    ∀ fuel attempt, attempt + fuel = tries → attempt < tries →
      retryGo op fuel attempt = .raised (op (tries - 1)) tries := by
  intro fuel
  induction fuel with
  | zero => intro attempt h1 h2; omega
  | succ f ih =>
    intro attempt h1 h2
    by_cases hf : f = 0
    · subst hf
      have ha : attempt = tries - 1 := by omega
      cases hop : op attempt with
      | success w =>
        have hlast : op (tries - 1) = ReqOutcome.success w := by rw [← ha]; exact hop
        exact absurd hlast (hfail w)
      | httpError c2 =>
        have hlast : op (tries - 1) = ReqOutcome.httpError c2 := by rw [← ha]; exact hop
        simp only [retryGo, hop]
        rw [if_neg (by simp)]
        rw [hlast]
        have : attempt + 1 = tries := by omega
        rw [this]
      | reqError =>
        have hlast : op (tries - 1) = ReqOutcome.reqError := by rw [← ha]; exact hop
        simp only [retryGo, hop]
        rw [if_neg (by simp)]
        rw [hlast]
        have : attempt + 1 = tries := by omega
        rw [this]
    · have hlt : attempt < tries - 1 := by omega
      have hr := hk attempt hlt
      cases hop : op attempt with
      | success w => rw [hop] at hr; simp [isRetryableOutcome] at hr
      | httpError c2 =>
        rw [hop] at hr
        simp only [isRetryableOutcome] at hr
        simp only [retryGo, hop]
        rw [if_pos ⟨hr, by omega⟩]
        exact ih (attempt + 1) (by omega) (by omega)
      | reqError =>
        simp only [retryGo, hop]
        rw [if_pos (by omega : 0 < f)]
        exact ih (attempt + 1) (by omega) (by omega)

/-- C5.  The retry law for `retry_request`: (i) an operation failing with a
retryable condition on every attempt before `k` (k within the budget) and
succeeding at attempt `k` returns the success after exactly `k + 1`
invocations and no further attempts; (ii) if all attempts before the last
fail retryably and the last attempt also fails, the last observed failure is
raised after exactly `tries` invocations; (iii) a non-retryable failure on
the first attempt is raised immediately, after exactly one invocation. -/
theorem retry_request_law (op : ℕ → ReqOutcome) (tries k : ℕ) (v : String) :
    ((∀ i, i < k → isRetryableOutcome (op i) = true) → op k = .success v →
      k < tries → retry_request op tries = .ok v (k + 1)) ∧
    ((∀ i, i < tries - 1 → isRetryableOutcome (op i) = true) →
      (∀ w, op (tries - 1) ≠ .success w) → 0 < tries →
      retry_request op tries = .raised (op (tries - 1)) tries) ∧
    (isRetryableOutcome (op 0) = false → (∀ w, op 0 ≠ .success w) → 0 < tries →
      retry_request op tries = .raised (op 0) 1) := by
  refine ⟨?_, ?_, ?_⟩
  · intro hk hs hlt
    exact retryGo_ok op k v hk hs tries 0 (by omega) (by omega)
  · intro hk hfail hpos
    exact retryGo_raise_last op tries hfail hk tries 0 (by omega) hpos
  · intro hnr hfail hpos
    obtain ⟨f, hf⟩ : ∃ f, tries = f + 1 := ⟨tries - 1, by omega⟩
    subst hf
    unfold retry_request
    cases hop : op 0 with
    | success w => exact absurd hop (hfail w)
    | httpError c2 =>
      rw [hop] at hnr
      simp only [isRetryableOutcome] at hnr
      simp only [retryGo, hop]
      rw [if_neg (fun hand => by rw [hand.1] at hnr; cases hnr)]
    | reqError =>
      rw [hop] at hnr
      simp [isRetryableOutcome] at hnr

/-- Witness for C5: two retryable failures then success with budget 4
(exactly 3 invocations); three retryable failures exhausting budget 3 (the
last failure raised after 3 invocations); a non-retryable 404 raised after a
single invocation despite budget 3. -/
theorem retry_request_law_witness :
    retry_request (fun i => if i < 2 then .reqError else .success "v") 4 = .ok "v" 3 ∧
    retry_request (fun _ => .httpError 500) 3 = .raised (.httpError 500) 3 ∧
    retry_request (fun _ => .httpError 404) 3 = .raised (.httpError 404) 1 :=
  ⟨(retry_request_law (fun i => if i < 2 then .reqError else .success "v") 4 2 "v").1
      (by decide) (by decide) (by decide),
   (retry_request_law (fun _ => .httpError 500) 3 0 "v").2.1
      (by decide) (fun w h => ReqOutcome.noConfusion h) (by decide),
   (retry_request_law (fun _ => .httpError 404) 3 0 "v").2.2
      (by decide) (fun w h => ReqOutcome.noConfusion h) (by decide)⟩

/-! ## Claim C6: paginator bounds -/

/-- If the accumulated results stay below the target, the loop ended either
on an absent continuation token or by consuming all its page budget. -/
theorem paginateGo_stop (provider : ℕ → PageResp) (total : ℕ) :
    ∀ (fuel idx : ℕ) (acc : List String) (tr : List ℕ),
      (paginateGo provider total fuel idx acc tr).1.length < total →
      (paginateGo provider total fuel idx acc tr).2.2.1 = true ∨
      (paginateGo provider total fuel idx acc tr).2.1 = idx + fuel := by
  intro fuel
  induction fuel with
  | zero => intro idx acc tr _; right; simp [paginateGo]
  | succ f ih =>
    intro idx acc tr h
    unfold paginateGo at h ⊢
    by_cases hc : total ≤ acc.length
    · rw [if_pos hc] at h
      simp only at h
      omega
    · rw [if_neg hc] at h ⊢
      by_cases ht : (provider idx).nextToken = true
      · rw [if_pos ht] at h ⊢
        rcases ih (idx + 1) (acc ++ (provider idx).places) (tr ++ [total - acc.length]) h with
          h1 | h1
        · left; exact h1
        · right; rw [h1]; omega
      · rw [if_neg ht] at h ⊢
        left; rfl

/-- Every remaining-need value recorded during the run is positive. -/
theorem paginateGo_remainders (provider : ℕ → PageResp) (total : ℕ) :
    ∀ (fuel idx : ℕ) (acc : List String) (tr : List ℕ),
      (∀ x ∈ tr, 0 < x) →
      ∀ x ∈ (paginateGo provider total fuel idx acc tr).2.2.2, 0 < x := by
  intro fuel
  induction fuel with
  | zero => intro idx acc tr h; simpa [paginateGo] using h
  | succ f ih =>
    intro idx acc tr h
    unfold paginateGo
    by_cases hc : total ≤ acc.length
    · rw [if_pos hc]; exact h
    · rw [if_neg hc]
      have h2 : ∀ x ∈ tr ++ [total - acc.length], 0 < x := by
        intro x hx
        rcases List.mem_append.1 hx with hx | hx
        · exact h x hx
        · simp only [List.mem_singleton] at hx
          subst hx; omega
      by_cases ht : (provider idx).nextToken = true
      · rw [if_pos ht]
        exact ih (idx + 1) (acc ++ (provider idx).places) (tr ++ [total - acc.length]) h2
      · rw [if_neg ht]
        exact h2

/-- C6.  For a positive target: the paginator returns at most `total`
candidates; if it returns fewer, the provider stopped supplying a
continuation token before the target was met or the hard 25-page ceiling was
hit; and every page fetch was issued with a positive remaining need `x`, for
which the effective requested page size `max(1, min(min(20, x), 20))` is
exactly `min(20, x)` — the provider cap 20 against the remaining need. -/
theorem paginate_text_search_bounds (provider : ℕ → PageResp) (total : ℕ)
    (_hpos : 0 < total) :
    (paginate_text_search provider total).results.length ≤ total ∧
    ((paginate_text_search provider total).results.length < total →
      (paginate_text_search provider total).noTokenStop = true ∨
      (paginate_text_search provider total).pagesUsed = 25) ∧
    (∀ x ∈ (paginate_text_search provider total).remainders,
      0 < x ∧ textSearchPageSize (min 20 x) = min 20 x) := by
  refine ⟨?_, ?_, ?_⟩
  · simp only [paginate_text_search]
    rw [List.length_take]
    omega
  · intro h
    simp only [paginate_text_search] at h ⊢
    rw [List.length_take] at h
    have hlen : (paginateGo provider total 25 0 [] []).1.length < total := by omega
    have h2 := paginateGo_stop provider total 25 0 [] [] hlen
    simpa using h2
  · intro x hx
    simp only [paginate_text_search] at hx
    have h0 := paginateGo_remainders provider total 25 0 [] [] (by simp) x hx
    refine ⟨h0, ?_⟩
    unfold textSearchPageSize
    omega

/-- Witness for C6: a provider that returns one place and no continuation
token against a target of 5 — the output stays within the target and the
shortfall is explained by the absent token. -/
theorem paginate_text_search_bounds_witness :
    (paginate_text_search (fun _ => ⟨["a"], false⟩) 5).results.length ≤ 5 ∧
    ((paginate_text_search (fun _ => ⟨["a"], false⟩) 5).noTokenStop = true ∨
      (paginate_text_search (fun _ => ⟨["a"], false⟩) 5).pagesUsed = 25) :=
  ⟨(paginate_text_search_bounds (fun _ => ⟨["a"], false⟩) 5 (by norm_num)).1,
   (paginate_text_search_bounds (fun _ => ⟨["a"], false⟩) 5 (by norm_num)).2.1 (by decide)⟩

/-! ## Claim C7: years inferred from a founding year -/

/-- C7.  For a matched year `y` and current year `now`: the year-based
heuristics yield `now − y` when `1970 ≤ y ≤ now`, yield no result when `y`
lies outside that range, and never yield a negative value. -/
theorem infer_years_from_year_range (now y : ℤ) :
    (1970 ≤ y → y ≤ now → inferYearsFromYear now y = some (now - y)) ∧
    (y < 1970 ∨ now < y → inferYearsFromYear now y = none) ∧
    (∀ v, inferYearsFromYear now y = some v → 0 ≤ v) := by
  refine ⟨?_, ?_, ?_⟩
  · intro h1 h2
    unfold inferYearsFromYear
    rw [if_pos ⟨h1, h2⟩]
    congr 1
    omega
  · intro h
    unfold inferYearsFromYear
    rw [if_neg (by omega)]
  · intro v h
    unfold inferYearsFromYear at h
    split at h
    · injection h with h2
      rw [← h2]
      exact le_max_left 0 (now - y)
    · cases h

/-- Witness for C7: the spec's scenario — `"practicing since 2010"` read in
calendar year 2024 yields 14 years, both at the `inferYearsFromYear` level
and through the full text extraction. -/
theorem infer_years_from_year_range_witness :
    inferYearsFromYear 2024 2010 = some 14 ∧
    yearsFromText 2024 "practicing since 2010" = some 14 := by
  constructor
  · have h := (infer_years_from_year_range 2024 2010).1 (by norm_num) (by norm_num)
    rw [h]
    norm_num
  · decide

/-! ## Claim C8: subpage fetch bound and short-circuit -/

/-- The subpage loop performs at most one fetch per candidate link. -/
theorem crawlLoop_count_le (now : ℤ) (fetch : String → Option ParsedPage) :
    ∀ (links : List String) (e : Option String) (y : Option ℤ) (n : ℕ),
      (crawlLoop now fetch links e y n).2.2 ≤ n + links.length := by
  intro links
  induction links with
  | nil => intro e y n; simp [crawlLoop]
  | cons link rest ih =>
    intro e y n
    unfold crawlLoop
    split
    · simp
    · cases hf : fetch link with
      | none =>
        have h2 := ih e y (n + 1)
        simp only [List.length_cons]
        omega
      | some pg =>
        have h2 := ih (subStep now pg e y).1 (subStep now pg e y).2 (n + 1)
        simp only [List.length_cons]
        omega

/-- With a truthy email and truthy years value the loop stops immediately. -/
theorem crawlLoop_stop (now : ℤ) (fetch : String → Option ParsedPage)
    (links : List String) (e : Option String) (y : Option ℤ) (n : ℕ)
    (he : pyTruthyStr e = true) (hy : pyTruthyInt y = true) :
    crawlLoop now fetch links e y n = (e, y, n) := by
  cases links with
  | nil => rfl
  | cons l rest =>
    unfold crawlLoop
    rw [if_pos ⟨he, hy⟩]

/-- C8 (amended).  The crawler fetches at most 8 candidate subpages beyond
the homepage, and fetches none at all when the homepage already resolved a
Python-truthy email (nonempty) and a Python-truthy years value (nonzero).
The stop test is truthiness, not mere resolution: a resolved years value of
`0` (or an empty-string email) does not trigger the short-circuit — see the
counterexample. -/
theorem crawl_subpage_bound_and_truthy_short_circuit (now : ℤ)
    (home : Option ParsedPage) (order : List String)
    (fetch : String → Option ParsedPage) :
    (crawl_doctor_site now home order fetch).2.2 ≤ 8 ∧
    (∀ pg, home = some pg → pyTruthyStr (homeEmail pg) = true →
      pyTruthyInt (yearsFromText now pg.text) = true →
      (crawl_doctor_site now home order fetch).2.2 = 0) := by
  constructor
  · cases home with
    | none => simp [crawl_doctor_site]
    | some pg =>
      have h1 := crawlLoop_count_le now fetch (order.take 8) (homeEmail pg)
        (yearsFromText now pg.text) 0
      have h2 : (order.take 8).length ≤ 8 := by
        rw [List.length_take]; omega
      simp only [crawl_doctor_site]
      omega
  · intro pg hpg he hy
    subst hpg
    simp only [crawl_doctor_site]
    rw [crawlLoop_stop now fetch (order.take 8) (homeEmail pg)
      (yearsFromText now pg.text) 0 he hy]

/-- Witness for C8: a homepage resolving the truthy pair
(`a@b.cd`, 7 years) performs zero subpage fetches even with a candidate link
available, and the fetch count is within the bound of 8. -/
theorem crawl_subpage_bound_witness :
    (crawl_doctor_site 2024 (some (ParsedPage.mk ["mailto:a@b.cd"] [] "7 years experience"))
      ["https://s/contact"] (fun _ => none)).2.2 = 0 ∧
    (crawl_doctor_site 2024 (some (ParsedPage.mk ["mailto:a@b.cd"] [] "7 years experience"))
      ["https://s/contact"] (fun _ => none)).2.2 ≤ 8 :=
  ⟨(crawl_subpage_bound_and_truthy_short_circuit 2024
      (some (ParsedPage.mk ["mailto:a@b.cd"] [] "7 years experience"))
      ["https://s/contact"] (fun _ => none)).2
      (ParsedPage.mk ["mailto:a@b.cd"] [] "7 years experience") rfl (by decide) (by decide),
   (crawl_subpage_bound_and_truthy_short_circuit 2024
      (some (ParsedPage.mk ["mailto:a@b.cd"] [] "7 years experience"))
      ["https://s/contact"] (fun _ => none)).1⟩

/-- Counterexample to C8 as stated: a homepage with a validated mailto email
and the text `"0 years experience"` resolves both fields (email `doc@x.com`,
years `0`, which is not `None`), yet the crawler still fetches its qualifying
candidate subpage — one fetch instead of the zero the short-circuit claim
demands — because the stop test `if email and years` treats the resolved
value `0` as falsy. -/
theorem crawl_short_circuit_zero_years_cex :
    candidateLinks (ParsedPage.mk ["mailto:doc@x.com", "https://x.com/contact"] []
      "0 years experience") = ["https://x.com/contact"] ∧
    crawl_doctor_site 2026 (some (ParsedPage.mk ["mailto:doc@x.com", "https://x.com/contact"]
      [] "0 years experience")) ["https://x.com/contact"] (fun _ => none) =
      (some "doc@x.com", some 0, 1) ∧
    (1 : ℕ) ≠ 0 :=
  ⟨by decide, by decide, by decide⟩

/-! ## Claim C9: determinism of the extraction engine -/

/-- C9 (amended).  The crawl result is a function of the page contents and
the candidate-link enumeration order, and only the first 8 entries of that
order matter: two runs over identical content that enumerate the candidate
set the same way (as happens within one interpreter process) produce the same
(email, years) pair. -/
theorem crawl_deterministic_in_first_eight (now : ℤ) (home : Option ParsedPage)
    (fetch : String → Option ParsedPage) (order1 order2 : List String)
    (h : order1.take 8 = order2.take 8) :
    crawl_doctor_site now home order1 fetch = crawl_doctor_site now home order2 fetch := by
  cases home with
  | none => rfl
  | some pg => simp only [crawl_doctor_site, h]

/-- Witness for the amended C9: two candidate enumerations agreeing on their
first 8 entries give identical crawl results. -/
theorem crawl_deterministic_in_first_eight_witness :
    crawl_doctor_site 2024 (some (ParsedPage.mk [] [] "b@c.de"))
      ["l1", "l2", "l3", "l4", "l5", "l6", "l7", "l8", "l9"] (fun _ => none) =
    crawl_doctor_site 2024 (some (ParsedPage.mk [] [] "b@c.de"))
      ["l1", "l2", "l3", "l4", "l5", "l6", "l7", "l8", "lX"] (fun _ => none) :=
  crawl_deterministic_in_first_eight 2024 (some (ParsedPage.mk [] [] "b@c.de"))
    (fun _ => none) ["l1", "l2", "l3", "l4", "l5", "l6", "l7", "l8", "l9"]
    ["l1", "l2", "l3", "l4", "l5", "l6", "l7", "l8", "lX"] (by decide)

/-- Counterexample to C9 as stated: with identical page content at every URL,
two runs that enumerate the same two-element candidate set in the two
possible orders (Python `set` iteration order is not determined by content —
string hashing is randomized per process) extract different emails, so the
(email, years) pair is not a function of page content alone. -/
theorem crawl_order_dependence_cex :
    candidateLinks (ParsedPage.mk ["https://x/contact", "https://x/about"] [] "") =
      ["https://x/contact", "https://x/about"] ∧
    List.Perm ["https://x/contact", "https://x/about"]
      ["https://x/about", "https://x/contact"] ∧
    (crawl_doctor_site 0 (some (ParsedPage.mk ["https://x/contact", "https://x/about"] [] ""))
      ["https://x/contact", "https://x/about"]
      (fun u => if u = "https://x/contact" then some (ParsedPage.mk [] [] "a@x.com")
                else if u = "https://x/about" then some (ParsedPage.mk [] [] "b@y.com")
                else none)).1 = some "a@x.com" ∧
    (crawl_doctor_site 0 (some (ParsedPage.mk ["https://x/contact", "https://x/about"] [] ""))
      ["https://x/about", "https://x/contact"]
      (fun u => if u = "https://x/contact" then some (ParsedPage.mk [] [] "a@x.com")
                else if u = "https://x/about" then some (ParsedPage.mk [] [] "b@y.com")
                else none)).1 = some "b@y.com" ∧
    some "a@x.com" ≠ some "b@y.com" :=
  ⟨by decide, by decide, by decide, by decide, by decide⟩

/-! ## Claim C1: at most one output row per place id -/

/-- Invariant of the app.py admission loop: if the admitted list has no
duplicates and is contained in the seen set, the same holds after a batch. -/
theorem appInner_invariant (target : ℕ) (cached : List String) :
    ∀ (b : List (Option String)) (seen fetched : List String),
      fetched.Nodup → (∀ x ∈ fetched, x ∈ seen) →
      (appInner target cached b seen fetched).2.Nodup ∧
        ∀ x ∈ (appInner target cached b seen fetched).2,
          x ∈ (appInner target cached b seen fetched).1 := by
  intro b
  induction b with
  | nil => intro seen fetched h1 h2; exact ⟨h1, h2⟩
  | cons p rest ih =>
    intro seen fetched h1 h2
    cases p with
    | none =>
      simp only [appInner]
      exact ih seen fetched h1 h2
    | some pid =>
      simp only [appInner]
      split
      next hcond =>
        have hnotin : pid ∉ fetched := fun hm => hcond.2.1 (h2 pid hm)
        have hnodup2 : (fetched ++ [pid]).Nodup := by
          rw [List.nodup_append]
          refine ⟨h1, List.nodup_singleton pid, ?_⟩
          intro a ha hb
          simp only [List.mem_singleton] at hb
          subst hb
          exact hnotin ha
        have hsub2 : ∀ x ∈ fetched ++ [pid], x ∈ pid :: seen := by
          intro x hx
          rcases List.mem_append.1 hx with hx | hx
          · exact List.mem_cons_of_mem _ (h2 x hx)
          · simp only [List.mem_singleton] at hx
            subst hx
            exact List.mem_cons_self _ _
        split
        next => exact ⟨hnodup2, hsub2⟩
        next => exact ih (pid :: seen) (fetched ++ [pid]) hnodup2 hsub2
      next => exact ih seen fetched h1 h2

/-- Invariant of the outer batch loop of app.py. -/
theorem appOuter_invariant (target : ℕ) (cached : List String) :
    ∀ (bs : List (List (Option String))) (seen fetched : List String),
      fetched.Nodup → (∀ x ∈ fetched, x ∈ seen) →
      (appOuter target cached bs seen fetched).2.Nodup := by
  intro bs
  induction bs with
  | nil => intro seen fetched h1 _; exact h1
  | cons b rest ih =>
    intro seen fetched h1 h2
    simp only [appOuter]
    split
    next => exact h1
    next =>
      obtain ⟨h3, h4⟩ := appInner_invariant target cached b seen fetched h1 h2
      exact ih (appInner target cached b seen fetched).1
        (appInner target cached b seen fetched).2 h3 h4

/-- Invariant of the scraper.py run loop: emitted row ids are distinct and
disjoint from the incoming seen set. -/
theorem scraperRun_invariant :
    ∀ (cands : List (Option String × Bool)) (seen : List String),
      (scraperRun cands seen).1.Nodup ∧
        ∀ x ∈ (scraperRun cands seen).1, x ∉ seen := by
  intro cands
  induction cands with
  | nil =>
    intro seen
    constructor
    · exact List.nodup_nil
    · intro x hx
      simp [scraperRun] at hx
  | cons pr rest ih =>
    intro seen
    obtain ⟨pid?, ok⟩ := pr
    cases pid? with
    | none =>
      simp only [scraperRun]
      exact ih seen
    | some pid =>
      simp only [scraperRun]
      split
      next => exact ih seen
      next hguard =>
        obtain ⟨ihn, ihs⟩ := ih (pid :: seen)
        have hpid : pid ∉ seen := fun hm => hguard (Or.inr hm)
        cases ok with
        | true =>
          constructor
          · refine List.nodup_cons.mpr ⟨?_, ihn⟩
            intro hm
            exact ihs pid hm (List.mem_cons_self _ _)
          · intro x hx
            rcases List.mem_cons.1 hx with hx | hx
            · subst hx; exact hpid
            · intro hxs
              exact ihs x hx (List.mem_cons_of_mem _ hxs)
        | false =>
          constructor
          · exact ihn
          · intro x hx hxs
            exact ihs x hx (List.mem_cons_of_mem _ hxs)

/-- C1.  Each place id yields at most one output row.  In `app.py`, the ids
admitted past the shared seen-set (and hence the rows built from them, one
attempt per admitted candidate) are pairwise distinct; in `scraper.py`, the
emitted row ids are pairwise distinct, whatever the per-candidate details
outcome. -/
theorem dedup_at_most_one_row_per_place_id (target : ℕ) (cached : List String)
    (batches : List (List (Option String))) (cands : List (Option String × Bool)) :
    (appFetchedIds target cached batches).Nodup ∧ (scraperRun cands []).1.Nodup := by
  constructor
  · exact appOuter_invariant target cached batches [] [] List.nodup_nil (by simp)
  · exact (scraperRun_invariant cands []).1
